import Mathlib

/-
Shallow embedding of the streamparse bolt runtime
(src/streamparse/storm/bolt.py): the `Bolt` runtime core (emit / ack /
fail, the per-message dispatch `_run`, and the terminal exception handler
`_handle_run_exception`) and the `BatchingBolt` batching layer
(`process`, `process_tick`, `_handle_run_exception`).

Wire I/O, locking and process exit are modelled as explicit event traces;
user-supplied hooks (`process`, `process_tick`, `process_batch`,
`group_key`) are modelled as oracle functions that either succeed or raise.
-/

/-- A Storm tuple as decoded by the transport layer
(`streamparse.storm.component.Tuple`). Values are modelled as integers. -/
structure Tuple where
  id : String
  component : String
  stream : String
  task : Int
  values : List Int
  deriving DecidableEq, Repr

/-- An argument of `emit`'s `anchors` list: Python callers may pass either a
raw id (string) or a `Tuple` instance. -/
inductive Anchor where
  | rawId (s : String)
  | ref (t : Tuple)
  deriving DecidableEq, Repr

/-- `a.id if isinstance(a, Tuple) else a` from `Bolt.emit`. -/
def normalizeAnchor : Anchor → String
  | Anchor.rawId s => s
  | Anchor.ref t => t.id

/-- The outbound `emit` command envelope built by `Bolt.emit`.
`need_task_ids = some false` means the field is present (the code only sets
the field when the argument is exactly `False`); `none` means absent. -/
structure EmitMsg where
  tup : List Int
  anchors : List String
  stream : Option String
  task : Option Int
  need_task_ids : Option Bool
  deriving DecidableEq, Repr

/-- Primitive events of one `Bolt.emit` call: lock operations on the reader
and writer locks, `send_message`, and `read_task_ids`. -/
inductive WireEvent where
  | acquireReader
  | acquireWriter
  | sendMsg (m : EmitMsg)
  | readIds
  | releaseWriter
  | releaseReader
  deriving DecidableEq, Repr

/-- Configuration flags of the base `Bolt` (class attributes, default
`True`). -/
structure BoltCfg where
  auto_anchor : Bool := true
  auto_ack : Bool := true
  auto_fail : Bool := true
  deriving DecidableEq, Repr

/-- Base-runtime state visible to `emit`: the flags and `_current_tups`. -/
structure BoltState where
  cfg : BoltCfg
  current_tups : List Tuple
  deriving DecidableEq, Repr

/-- The messages sent by a trace of wire events. -/
def sentMsgs (tr : List WireEvent) : List EmitMsg :=
  tr.filterMap (fun e =>
    match e with
    | WireEvent.sendMsg m => some m
    | _ => none)

/-- `Bolt.emit`. The payload type-check (`isinstance(tup, (list, tuple))`)
is enforced by the embedding's types, so the `TypeError` branch is
unrepresentable. `need_task_ids` is compared with `is True` / `is False` in
the source, so it is modelled as `Option Bool` with `none` standing for any
non-boolean argument (such as Python `None`). `response` is the value the
transport would deliver for `read_task_ids`. Returns the event trace of the
call and its return value. -/
def Bolt.emit (st : BoltState) (tup : List Int) (stream : Option String)
    (anchors : Option (List Anchor)) (direct_task : Option Int)
    (need_task_ids : Option Bool) (response : List Int) :
    List WireEvent × Option (List Int) :=
  let anchorArgs : List Anchor :=
    match anchors with
    | none => if st.cfg.auto_anchor then st.current_tups.map Anchor.ref else []
    | some l => l
  let msg : EmitMsg :=
    { tup := tup
      anchors := anchorArgs.map normalizeAnchor
      stream := stream
      task := direct_task
      need_task_ids := if need_task_ids = some false then some false else none }
  if need_task_ids = some true then
    match direct_task with
    | some t =>
      ([WireEvent.acquireReader, WireEvent.acquireWriter, WireEvent.sendMsg msg,
        WireEvent.releaseWriter, WireEvent.releaseReader], some [t])
    | none =>
      ([WireEvent.acquireReader, WireEvent.acquireWriter, WireEvent.sendMsg msg,
        WireEvent.readIds, WireEvent.releaseWriter, WireEvent.releaseReader],
       some response)
  else
    ([WireEvent.acquireReader, WireEvent.acquireWriter, WireEvent.sendMsg msg,
      WireEvent.releaseWriter, WireEvent.releaseReader], none)

/-- The loop body of `Bolt.emit_many`: apply `emit` to each payload in
order, accumulating events and results. `responses` is the environment's
oracle giving the `read_task_ids` answer for the i-th emit call. -/
def emitManyGo (st : BoltState) (stream : Option String)
    (anchors : Option (List Anchor)) (direct_task : Option Int)
    (need_task_ids : Option Bool) (responses : Nat → List Int) :
    List (List Int) → Nat → List WireEvent × List (Option (List Int))
  | [], _ => ([], [])
  | t :: ts, i =>
    let r := Bolt.emit st t stream anchors direct_task need_task_ids (responses i)
    let rest := emitManyGo st stream anchors direct_task need_task_ids responses ts (i + 1)
    (r.1 ++ rest.1, r.2 :: rest.2)

/-- `Bolt.emit_many` (its `need_task_ids` parameter defaults to `None` in
the source, i.e. `none` here). -/
def Bolt.emit_many (st : BoltState) (tups : List (List Int))
    (stream : Option String) (anchors : Option (List Anchor))
    (direct_task : Option Int) (need_task_ids : Option Bool)
    (responses : Nat → List Int) :
    List WireEvent × List (Option (List Int)) :=
  emitManyGo st stream anchors direct_task need_task_ids responses tups 0

/-- Claim C5: for every call to `Bolt.emit`: with `direct_task = T` and
`need_task_ids = True` the call returns exactly `[T]` and performs no
response-read; with `need_task_ids = False` it returns `None` and performs
no response-read regardless of `direct_task`; and in every case exactly one
outbound message is sent. -/
theorem emit_direct_task_and_need_task_ids
    (st : BoltState) (tup : List Int) (stream : Option String)
    (anchors : Option (List Anchor)) (direct_task : Option Int)
    (need_task_ids : Option Bool) (response : List Int) :
    (∀ T, direct_task = some T → need_task_ids = some true →
      (Bolt.emit st tup stream anchors direct_task need_task_ids response).2 = some [T] ∧
      WireEvent.readIds ∉ (Bolt.emit st tup stream anchors direct_task need_task_ids response).1) ∧
    (need_task_ids = some false →
      (Bolt.emit st tup stream anchors direct_task need_task_ids response).2 = none ∧
      WireEvent.readIds ∉ (Bolt.emit st tup stream anchors direct_task need_task_ids response).1) ∧
    (sentMsgs (Bolt.emit st tup stream anchors direct_task need_task_ids response).1).length = 1 := by
  refine ⟨?_, ?_, ?_⟩
  · rintro T rfl rfl
    simp [Bolt.emit, sentMsgs]
  · rintro rfl
    simp [Bolt.emit, sentMsgs]
  · rcases need_task_ids with _ | b
    · simp [Bolt.emit, sentMsgs]
    · rcases b with _ | _
      · simp [Bolt.emit, sentMsgs]
      · rcases direct_task with _ | T <;> simp [Bolt.emit, sentMsgs]

/-- Witness for C5 at concrete inputs. -/
theorem emit_direct_task_and_need_task_ids_witness :
    (Bolt.emit { cfg := {}, current_tups := [] } [7] none none (some 4)
      (some true) []).2 = some [4] := by
  have h := emit_direct_task_and_need_task_ids
    { cfg := {}, current_tups := [] } [7] none none (some 4) (some true) []
  exact (h.1 4 rfl rfl).1

/-- Claim C6: when `anchors` is omitted, the outbound message's anchors are
the ids of all in-flight tuples if `auto_anchor` is on and `[]` otherwise;
when `anchors` is given (raw ids or `Tuple` references in any mix), the
serialized anchors are always the raw ids, `Tuple` references being
replaced by their `id` attribute. -/
theorem emit_anchor_defaulting_and_normalization
    (st : BoltState) (tup : List Int) (stream : Option String)
    (direct_task : Option Int) (need_task_ids : Option Bool)
    (response : List Int) :
    (∀ m ∈ sentMsgs (Bolt.emit st tup stream none direct_task need_task_ids response).1,
      m.anchors = if st.cfg.auto_anchor then st.current_tups.map Tuple.id else []) ∧
    (∀ ancs : List Anchor,
      ∀ m ∈ sentMsgs (Bolt.emit st tup stream (some ancs) direct_task need_task_ids response).1,
      m.anchors = ancs.map normalizeAnchor ∧
      ∀ t : Tuple, Anchor.ref t ∈ ancs → t.id ∈ m.anchors) := by
  constructor
  · intro m hm
    rcases need_task_ids with _ | b
    · simp [Bolt.emit, sentMsgs] at hm
      subst hm
      by_cases h : st.cfg.auto_anchor <;>
        simp [h, normalizeAnchor, Function.comp]
    · rcases b with _ | _
      · simp [Bolt.emit, sentMsgs] at hm
        subst hm
        by_cases h : st.cfg.auto_anchor <;>
          simp [h, normalizeAnchor, Function.comp]
      · rcases direct_task with _ | T <;>
        · simp [Bolt.emit, sentMsgs] at hm
          subst hm
          by_cases h : st.cfg.auto_anchor <;>
            simp [h, normalizeAnchor, Function.comp]
  · intro ancs m hm
    have hanch : m.anchors = ancs.map normalizeAnchor := by
      rcases need_task_ids with _ | b
      · simp [Bolt.emit, sentMsgs] at hm
        subst hm; rfl
      · rcases b with _ | _
        · simp [Bolt.emit, sentMsgs] at hm
          subst hm; rfl
        · rcases direct_task with _ | T <;>
          · simp [Bolt.emit, sentMsgs] at hm
            subst hm; rfl
    refine ⟨hanch, ?_⟩
    intro t ht
    rw [hanch]
    exact List.mem_map.mpr ⟨Anchor.ref t, ht, rfl⟩

/-- Witness for C6 at concrete inputs: anchors `[rawId "x", ref t]`
serialize to `["x", t.id]`. -/
theorem emit_anchor_defaulting_and_normalization_witness :
    ∀ m ∈ sentMsgs (Bolt.emit { cfg := {}, current_tups := [] } [1] none
      (some [Anchor.rawId "x",
             Anchor.ref { id := "t9", component := "c", stream := "s", task := 0, values := [] }])
      none (some true) [3]).1,
    m.anchors = ["x", "t9"] := by
  intro m hm
  have h := emit_anchor_defaulting_and_normalization
    { cfg := {}, current_tups := [] } [1] none none (some true) [3]
  exact (h.2 [Anchor.rawId "x",
    Anchor.ref { id := "t9", component := "c", stream := "s", task := 0, values := [] }] m hm).1

/-- Claim C8: when `need_task_ids` is neither exactly `True` nor exactly
`False` (modelled as `none`, e.g. Python `None`, which `emit_many` passes
by default), the outbound message carries no `need_task_ids` field, no
response is read, and the call returns `None`; hence `emit_many` with its
defaults returns one `None` per payload. -/
theorem emit_need_task_ids_non_bool
    (st : BoltState) (tup : List Int) (stream : Option String)
    (anchors : Option (List Anchor)) (direct_task : Option Int)
    (response : List Int) :
    ((Bolt.emit st tup stream anchors direct_task none response).2 = none ∧
     WireEvent.readIds ∉ (Bolt.emit st tup stream anchors direct_task none response).1 ∧
     ∀ m ∈ sentMsgs (Bolt.emit st tup stream anchors direct_task none response).1,
       m.need_task_ids = none) ∧
    (∀ (tups : List (List Int)) (responses : Nat → List Int),
      (Bolt.emit_many st tups stream anchors direct_task none responses).2 =
        List.replicate tups.length none) := by
  constructor
  · refine ⟨?_, ?_, ?_⟩
    · simp [Bolt.emit]
    · simp [Bolt.emit]
    · intro m hm
      simp [Bolt.emit, sentMsgs] at hm
      subst hm; rfl
  · intro tups responses
    rw [Bolt.emit_many]
    generalize 0 = i
    induction tups generalizing i with
    | nil => rfl
    | cons t ts ih =>
      simp [emitManyGo, Bolt.emit, ih, List.replicate_succ]

/-- Witness for C8 at concrete inputs. -/
theorem emit_need_task_ids_non_bool_witness :
    (Bolt.emit_many { cfg := {}, current_tups := [] } [[1], [2], [3]]
      none none none none (fun _ => [])).2 = [none, none, none] := by
  have h := emit_need_task_ids_non_bool
    { cfg := {}, current_tups := [] } [] none none none []
  have h2 := h.2 [[1], [2], [3]] (fun _ => [])
  simpa using h2

/-- Outbound commands other than `emit`: `ack`, `fail` (keyed by tuple id,
as sent by `Bolt.ack` / `Bolt.fail`) and `sync`. -/
inductive OutCmd where
  | ackId (i : String)
  | failId (i : String)
  | sync
  deriving DecidableEq, Repr

/-- Observable events of the run loop and of the batching layer: a sent
command, an invocation of the user hook `process_batch(key, tups)`, a call
to `raise_exception(exc, tups)`, and `sys.exit(code)`. -/
inductive Event where
  | send (c : OutCmd)
  | processBatchCall (k : Option String) (tups : List Tuple)
  | raiseExc (tups : List Tuple)
  | exitProc (code : Nat)
  deriving DecidableEq, Repr

/-- `Bolt._handle_run_exception`: if exactly one tuple is in flight it is
reported via `raise_exception` and, when `auto_fail` is set, failed; in all
cases the process exits with status 1. -/
def Bolt.handle_run_exception (cfg : BoltCfg) (cur : List Tuple) : List Event :=
  (match cur with
   | [t] =>
     Event.raiseExc [t] ::
       (if cfg.auto_fail then [Event.send (OutCmd.failId t.id)] else [])
   | _ => []) ++ [Event.exitProc 1]

/-- The user hooks of the base `Bolt`, abstracted to success/failure
oracles: `processOk tup` (resp. `tickOk freq`) is `false` when the hook
raises an unhandled exception. -/
structure BoltHooks where
  processOk : Tuple → Bool
  tickOk : Int → Bool

/-- Result of dispatching one inbound message: the final `_current_tups`,
the events produced, and whether the dispatch completed without an
unhandled exception. -/
structure BoltStepResult where
  current_tups : List Tuple
  events : List Event
  ok : Bool
  deriving DecidableEq, Repr

/-- `Bolt._run` after the `read_tuple` call: sets `_current_tups = [tup]`,
classifies the message (heartbeat / tick / data), dispatches, auto-acks a
processed data tuple, and clears `_current_tups` on success. On an
unhandled hook exception (`ok = false`) `_current_tups` is still `[tup]`.
`values[0]` on an empty tick tuple is the `IndexError` case. -/
def Bolt.runStep (cfg : BoltCfg) (hooks : BoltHooks) (tup : Tuple) :
    BoltStepResult :=
  if tup.task = -1 ∧ tup.stream = "__heartbeat" then
    { current_tups := [], events := [Event.send OutCmd.sync], ok := true }
  else if tup.component = "__system" ∧ tup.stream = "__tick" then
    match tup.values.head? with
    | none => { current_tups := [tup], events := [], ok := false }
    | some freq =>
      if hooks.tickOk freq then
        { current_tups := [], events := [], ok := true }
      else
        { current_tups := [tup], events := [], ok := false }
  else
    if hooks.processOk tup then
      { current_tups := []
        events := if cfg.auto_ack then [Event.send (OutCmd.ackId tup.id)] else []
        ok := true }
    else
      { current_tups := [tup], events := [], ok := false }

/-- Result of one `run` loop iteration (or of a whole `run` loop). -/
structure IterResult where
  events : List Event
  ok : Bool
  deriving DecidableEq, Repr

/-- One iteration of `Bolt.run`'s `while True` body with its single
`except` handler: a dispatch exception goes to `_handle_run_exception`. -/
def Bolt.runIter (cfg : BoltCfg) (hooks : BoltHooks) (tup : Tuple) :
    IterResult :=
  let r := Bolt.runStep cfg hooks tup
  if r.ok then { events := r.events, ok := true }
  else
    { events := r.events ++ Bolt.handle_run_exception cfg r.current_tups
      ok := false }

/-- `Bolt.run` over a finite stream of inbound messages: iterations run in
order until the first unhandled exception terminates the process. -/
def Bolt.runLoop (cfg : BoltCfg) (hooks : BoltHooks) : List Tuple → IterResult
  | [] => { events := [], ok := true }
  | t :: ts =>
    let r := Bolt.runIter cfg hooks t
    if r.ok then
      let r2 := Bolt.runLoop cfg hooks ts
      { events := r.events ++ r2.events, ok := r2.ok }
    else r

/-- `BatchingBolt` configuration: the flags plus `ticks_between_batches`
(class attribute, default 1). -/
structure BatchCfg where
  auto_ack : Bool := true
  auto_fail : Bool := true
  ticks_between_batches : Nat := 1
  deriving DecidableEq, Repr

/-- `BatchingBolt` mutable state: `_batches` (a `defaultdict(list)`
modelled as an insertion-ordered association list), `_tick_counter`, and
the inherited `_current_tups`. -/
structure BatchState where
  batches : List (Option String × List Tuple)
  tick_counter : Nat
  current_tups : List Tuple
  deriving DecidableEq, Repr

/-- `self._batches[key].append(tup)` on a `defaultdict(list)`: append to
the existing group, or insert a new singleton group at the end. -/
def appendToGroup :
    List (Option String × List Tuple) → Option String → Tuple →
      List (Option String × List Tuple)
  | [], k, t => [(k, [t])]
  | (k', b) :: rest, k, t =>
    if k' = k then (k', b ++ [t]) :: rest
    else (k', b) :: appendToGroup rest k t

/-- `BatchingBolt.process` with a total `group_key`: compute the key and
append the tuple to that group's batch. -/
def BatchingBolt.process (gk : Tuple → Option String) (st : BatchState)
    (tup : Tuple) : BatchState :=
  { st with batches := appendToGroup st.batches (gk tup) tup }

/-- Result of the flush loop inside `BatchingBolt.process_tick`. -/
structure FlushResult where
  batches : List (Option String × List Tuple)
  current_tups : List Tuple
  events : List Event
  ok : Bool
  deriving DecidableEq, Repr

/-- The `for key, batch in iteritems(self._batches)` flush loop of
`BatchingBolt.process_tick`: per group, set `_current_tups` to the batch,
call `process_batch` (the oracle `pbOk` tells whether it raises), ack every
tuple of the batch when `auto_ack` is set, then set that group's batch to
`[]` before moving on. An unhandled `process_batch` exception stops the
loop with the dict as mutated so far. -/
def flushLoop (auto_ack : Bool) (pbOk : Option String → List Tuple → Bool)
    (cur : List Tuple) :
    List (Option String × List Tuple) → FlushResult
  | [] => { batches := [], current_tups := cur, events := [], ok := true }
  | (k, b) :: rest =>
    if pbOk k b then
      let evs := Event.processBatchCall k b ::
        (if auto_ack then b.map (fun t => Event.send (OutCmd.ackId t.id)) else [])
      let r := flushLoop auto_ack pbOk b rest
      { batches := (k, []) :: r.batches
        current_tups := r.current_tups
        events := evs ++ r.events
        ok := r.ok }
    else
      { batches := (k, b) :: rest
        current_tups := b
        events := [Event.processBatchCall k b]
        ok := false }

/-- Result of a batching-layer step: new state, events, ok flag. -/
structure StepResult where
  state : BatchState
  events : List Event
  ok : Bool
  deriving DecidableEq, Repr

/-- `BatchingBolt.process_tick`: increment `_tick_counter`; if it exceeds
`ticks_between_batches` and `_batches` is non-empty, flush every group,
then replace `_batches` with a fresh empty dict and reset the counter to 0.
If the counter has not exceeded the threshold, or `_batches` is empty, the
tick leaves everything else unchanged. An unhandled `process_batch`
exception (`ok = false`) escapes with the partially-mutated state. -/
def BatchingBolt.process_tick (cfg : BatchCfg)
    (pbOk : Option String → List Tuple → Bool) (st : BatchState) :
    StepResult :=
  let counter := st.tick_counter + 1
  if cfg.ticks_between_batches < counter then
    if st.batches = [] then
      { state := { st with tick_counter := counter }, events := [], ok := true }
    else
      let r := flushLoop cfg.auto_ack pbOk st.current_tups st.batches
      if r.ok then
        { state := { batches := [], tick_counter := 0, current_tups := r.current_tups }
          events := r.events
          ok := true }
      else
        { state := { batches := r.batches, tick_counter := counter, current_tups := r.current_tups }
          events := r.events
          ok := false }
  else
    { state := { st with tick_counter := counter }, events := [], ok := true }

/-- The ids of all tuples in one batch. -/
def batchIds (b : List Tuple) : List String := b.map Tuple.id

/-- The ids of all tuples buffered in `_batches`, in order. -/
def allBatchIds : List (Option String × List Tuple) → List String
  | [] => []
  | (_, b) :: rest => batchIds b ++ allBatchIds rest

/-- `for batch in itervalues(self._batches): for tup in batch: self.fail(tup)`
from `BatchingBolt._handle_run_exception`. -/
def failAll : List (Option String × List Tuple) → List Event
  | [] => []
  | (_, b) :: rest =>
    b.map (fun t => Event.send (OutCmd.failId t.id)) ++ failAll rest

/-- `BatchingBolt._handle_run_exception`: report `_current_tups` via
`raise_exception`, then, when `auto_fail` is set, fail every tuple still
stored in every group's batch, then exit with status 1. -/
def BatchingBolt.handle_run_exception (cfg : BatchCfg) (st : BatchState) :
    List Event :=
  Event.raiseExc st.current_tups ::
    (if cfg.auto_fail then failAll st.batches else []) ++ [Event.exitProc 1]

/-- The user hooks of `BatchingBolt`: `group_key` may raise
(`Except.error ()`), and `pbOk` tells whether `process_batch` raises. -/
structure BatchHooks where
  group_key : Tuple → Except Unit (Option String)
  pbOk : Option String → List Tuple → Bool

/-- The inherited `Bolt._run` dispatch, specialized to `BatchingBolt`'s
overridden `process` and `process_tick`. On the data branch the tuple is
appended to its group (unless `group_key` raises) and then auto-acked by
`_run` itself when `auto_ack` is set. -/
def BatchingBolt.runStep (cfg : BatchCfg) (hooks : BatchHooks)
    (st : BatchState) (tup : Tuple) : StepResult :=
  let st1 : BatchState := { st with current_tups := [tup] }
  if tup.task = -1 ∧ tup.stream = "__heartbeat" then
    { state := { st1 with current_tups := [] }
      events := [Event.send OutCmd.sync], ok := true }
  else if tup.component = "__system" ∧ tup.stream = "__tick" then
    match tup.values.head? with
    | none => { state := st1, events := [], ok := false }
    | some _ =>
      let r := BatchingBolt.process_tick cfg hooks.pbOk st1
      if r.ok then
        { state := { r.state with current_tups := [] }, events := r.events, ok := true }
      else r
  else
    match hooks.group_key tup with
    | Except.error _ => { state := st1, events := [], ok := false }
    | Except.ok k =>
      let st2 : BatchState := { st1 with batches := appendToGroup st1.batches k tup }
      { state := { st2 with current_tups := [] }
        events := if cfg.auto_ack then [Event.send (OutCmd.ackId tup.id)] else []
        ok := true }

/-- One iteration of the inherited `run` loop for `BatchingBolt`, with the
overridden `_handle_run_exception` as the single catch point. -/
def BatchingBolt.runIter (cfg : BatchCfg) (hooks : BatchHooks)
    (st : BatchState) (tup : Tuple) : StepResult :=
  let r := BatchingBolt.runStep cfg hooks st tup
  if r.ok then r
  else
    { r with events := r.events ++ BatchingBolt.handle_run_exception cfg r.state }

/-- A list ending in `[a]` has `a` as its last element. -/
theorem lastOfAppendSingleton {α : Type} (l : List α) (a : α) :
    (l ++ [a]).getLast? = some a := by
  induction l with
  | nil => rfl
  | cons x xs ih =>
    rw [List.cons_append]
    cases h : xs ++ [a] with
    | nil => exact absurd h (by simp)
    | cons y ys => rw [List.getLast?_cons_cons, ← h, ih]

/-- On a failed dispatch, `Bolt._run` has produced no events and left the
just-read tuple as the single in-flight tuple. On a successful dispatch no
`sys.exit` happens. -/
theorem boltRunStepSpec (cfg : BoltCfg) (hooks : BoltHooks) (tup : Tuple) :
    ((Bolt.runStep cfg hooks tup).ok = false →
      (Bolt.runStep cfg hooks tup).events = [] ∧
      (Bolt.runStep cfg hooks tup).current_tups = [tup]) ∧
    ((Bolt.runStep cfg hooks tup).ok = true →
      ∀ n, Event.exitProc n ∉ (Bolt.runStep cfg hooks tup).events) := by
  unfold Bolt.runStep
  by_cases h1 : tup.task = -1 ∧ tup.stream = "__heartbeat"
  · simp [h1]
  · simp only [h1, if_false]
    by_cases h2 : tup.component = "__system" ∧ tup.stream = "__tick"
    · simp only [h2, if_true]
      cases htv : tup.values.head? with
      | none => simp
      | some f =>
        by_cases h3 : hooks.tickOk f <;> simp [h3]
    · simp only [h2, if_false]
      by_cases h3 : hooks.processOk tup
      · simp only [h3, if_true]
        refine ⟨by simp, ?_⟩
        intro _ n
        by_cases h4 : cfg.auto_ack <;> simp [h4]
      · simp [h3]

/-- `Bolt._handle_run_exception` always emits exactly one `sys.exit(1)`. -/
theorem boltHandlerExitCount (cfg : BoltCfg) (cur : List Tuple) :
    (Bolt.handle_run_exception cfg cur).count (Event.exitProc 1) = 1 := by
  unfold Bolt.handle_run_exception
  rcases cur with _ | ⟨t, _ | ⟨u, l⟩⟩
  · simp
  · by_cases h : cfg.auto_fail <;> simp [h, List.count_cons, List.count_append]
  · simp

/-- Claim C4: any exception escaping the dispatch of one inbound message is
caught at exactly one place (`Bolt._handle_run_exception`): when exactly
one tuple is in flight it is reported via `raise_exception` and, when
`auto_fail` is enabled, a `fail` command is sent for it; in all cases
(including zero tuples in flight) the process exits with status 1, and a
full run emits `sys.exit(1)` exactly once on failure and never on
success. -/
theorem bolt_run_exception_single_catch :
    (∀ (cfg : BoltCfg) (hooks : BoltHooks) (tup : Tuple),
      ((Bolt.runIter cfg hooks tup).ok = true →
        ∀ n, Event.exitProc n ∉ (Bolt.runIter cfg hooks tup).events) ∧
      ((Bolt.runIter cfg hooks tup).ok = false →
        (Bolt.runIter cfg hooks tup).events = Bolt.handle_run_exception cfg [tup])) ∧
    (∀ (cfg : BoltCfg) (t : Tuple),
      Bolt.handle_run_exception cfg [t] =
        Event.raiseExc [t] ::
          (if cfg.auto_fail then [Event.send (OutCmd.failId t.id)] else []) ++
          [Event.exitProc 1]) ∧
    (∀ (cfg : BoltCfg) (cur : List Tuple), cur.length ≠ 1 →
      Bolt.handle_run_exception cfg cur = [Event.exitProc 1]) ∧
    (∀ (cfg : BoltCfg) (cur : List Tuple),
      (Bolt.handle_run_exception cfg cur).getLast? = some (Event.exitProc 1)) ∧
    (∀ (cfg : BoltCfg) (hooks : BoltHooks) (msgs : List Tuple),
      (Bolt.runLoop cfg hooks msgs).events.count (Event.exitProc 1) =
        if (Bolt.runLoop cfg hooks msgs).ok then 0 else 1) := by
  have hiter : ∀ (cfg : BoltCfg) (hooks : BoltHooks) (tup : Tuple),
      ((Bolt.runIter cfg hooks tup).ok = true →
        ∀ n, Event.exitProc n ∉ (Bolt.runIter cfg hooks tup).events) ∧
      ((Bolt.runIter cfg hooks tup).ok = false →
        (Bolt.runIter cfg hooks tup).events = Bolt.handle_run_exception cfg [tup]) := by
    intro cfg hooks tup
    have hs := boltRunStepSpec cfg hooks tup
    unfold Bolt.runIter
    cases hok : (Bolt.runStep cfg hooks tup).ok with
    | true =>
      simp only [hok, if_true]
      exact ⟨fun _ n => hs.2 hok n, fun h => absurd h (by simp)⟩
    | false =>
      simp only [hok, Bool.false_eq_true, if_false]
      refine ⟨fun h => absurd h (by simp), fun _ => ?_⟩
      rw [(hs.1 hok).1, (hs.1 hok).2, List.nil_append]
  refine ⟨hiter, ?_, ?_, ?_, ?_⟩
  · intro cfg t
    simp [Bolt.handle_run_exception]
  · intro cfg cur h
    rcases cur with _ | ⟨t, _ | ⟨u, l⟩⟩
    · rfl
    · exact absurd rfl h
    · rfl
  · intro cfg cur
    unfold Bolt.handle_run_exception
    exact lastOfAppendSingleton _ _
  · intro cfg hooks msgs
    induction msgs with
    | nil => simp [Bolt.runLoop]
    | cons t ts ih =>
      unfold Bolt.runLoop
      have hs := boltRunStepSpec cfg hooks t
      have hi := hiter cfg hooks t
      cases hok : (Bolt.runIter cfg hooks t).ok with
      | true =>
        simp only [hok, if_true, List.count_append]
        have h0 : (Bolt.runIter cfg hooks t).events.count (Event.exitProc 1) = 0 :=
          List.count_eq_zero.mpr (hi.1 hok 1)
        rw [h0]
        simpa using ih
      | false =>
        simp only [hok, Bool.false_eq_true, if_false]
        rw [hi.2 hok, boltHandlerExitCount]

/-- Witness for C4: a failing `process` on a data tuple yields exactly the
handler events, reporting and failing that tuple and exiting with 1. -/
theorem bolt_run_exception_single_catch_witness :
    (Bolt.runIter {} { processOk := fun _ => false, tickOk := fun _ => true }
      { id := "a", component := "c", stream := "s", task := 0, values := [] }).events =
      [Event.raiseExc [{ id := "a", component := "c", stream := "s", task := 0, values := [] }],
       Event.send (OutCmd.failId "a"), Event.exitProc 1] := by
  have h := bolt_run_exception_single_catch
  have h2 := (h.1 {} { processOk := fun _ => false, tickOk := fun _ => true }
    { id := "a", component := "c", stream := "s", task := 0, values := [] }).2 (by decide)
  rw [h2]
  decide

/-- When `process_batch` succeeds on every group, the flush loop completes
normally. -/
theorem flushLoopAllOk (a : Bool) (pbOk : Option String → List Tuple → Bool)
    (l : List (Option String × List Tuple))
    (h : ∀ p ∈ l, pbOk p.1 p.2 = true) :
    ∀ cur, (flushLoop a pbOk cur l).ok = true := by
  induction l with
  | nil => intro cur; rfl
  | cons p rest ih =>
    intro cur
    rcases p with ⟨k, b⟩
    have hk : pbOk k b = true := h (k, b) (List.mem_cons_self _ _)
    simp only [flushLoop, hk, if_true]
    exact ih (fun q hq => h q (List.mem_cons_of_mem _ hq)) b

/-- Flushing a non-empty group list always invokes `process_batch` on the
first group. -/
theorem flushLoopHeadCall (a : Bool) (pbOk : Option String → List Tuple → Bool)
    (cur : List Tuple) (k : Option String) (b : List Tuple)
    (rest : List (Option String × List Tuple)) :
    Event.processBatchCall k b ∈ (flushLoop a pbOk cur ((k, b) :: rest)).events := by
  unfold flushLoop
  by_cases h : pbOk k b <;> simp [h]

/-- Claim C1 (amended): for every tick and threshold `n`, a flush (an
invocation of `process_batch`) occurs iff some batch group is non-empty
and the incremented tick counter exceeds `n` — not necessarily for the
first time — and immediately after a completed flush the tick counter is 0
and the batch mapping is empty. The hypothesis `hne` is the reachable-state
invariant that `_batches` never stores an empty group. -/
theorem batching_flush_iff_nonempty_and_exceeds
    (cfg : BatchCfg) (pbOk : Option String → List Tuple → Bool)
    (st : BatchState)
    (hok : ∀ k b, pbOk k b = true)
    (hne : ∀ p ∈ st.batches, p.2 ≠ []) :
    ((∃ k b, Event.processBatchCall k b ∈ (BatchingBolt.process_tick cfg pbOk st).events) ↔
      ((∃ p ∈ st.batches, p.2 ≠ []) ∧ cfg.ticks_between_batches < st.tick_counter + 1)) ∧
    ((∃ p ∈ st.batches, p.2 ≠ []) ∧ cfg.ticks_between_batches < st.tick_counter + 1 →
      (BatchingBolt.process_tick cfg pbOk st).state.tick_counter = 0 ∧
      (BatchingBolt.process_tick cfg pbOk st).state.batches = []) := by
  have hnb : (∃ p ∈ st.batches, p.2 ≠ []) ↔ st.batches ≠ [] := by
    constructor
    · rintro ⟨p, hp, -⟩ hnil
      rw [hnil] at hp
      exact absurd hp (List.not_mem_nil _)
    · intro h
      obtain ⟨q, hq⟩ := List.exists_mem_of_ne_nil _ h
      exact ⟨q, hq, hne q hq⟩
  by_cases hc : cfg.ticks_between_batches < st.tick_counter + 1
  · by_cases hb : st.batches = []
    · have hev : BatchingBolt.process_tick cfg pbOk st =
          { state := { st with tick_counter := st.tick_counter + 1 }
            events := [], ok := true } := by
        simp [BatchingBolt.process_tick, hc, hb]
      rw [hev]
      constructor
      · constructor
        · rintro ⟨k, b, hkb⟩
          exact absurd hkb (List.not_mem_nil _)
        · rintro ⟨hx, -⟩
          exact absurd hb (hnb.mp hx)
      · rintro ⟨hx, -⟩
        exact absurd hb (hnb.mp hx)
    · have hokf := flushLoopAllOk cfg.auto_ack pbOk st.batches
        (fun p _ => hok p.1 p.2) st.current_tups
      have heq : BatchingBolt.process_tick cfg pbOk st =
          { state :=
              { batches := [],
                tick_counter := 0,
                current_tups :=
                  (flushLoop cfg.auto_ack pbOk st.current_tups st.batches).current_tups },
            events := (flushLoop cfg.auto_ack pbOk st.current_tups st.batches).events,
            ok := true } := by
        simp [BatchingBolt.process_tick, hc, hb, hokf]
      rw [heq]
      constructor
      · constructor
        · intro _
          exact ⟨hnb.mpr hb, hc⟩
        · rintro -
          obtain ⟨⟨k, b⟩, rest, hq⟩ : ∃ p rest, st.batches = p :: rest := by
            rcases hx : st.batches with _ | ⟨p, rest⟩
            · exact absurd hx hb
            · exact ⟨p, rest, rfl⟩
          rw [hq]
          exact ⟨k, b, flushLoopHeadCall _ _ _ _ _ _⟩
      · rintro -
        exact ⟨rfl, rfl⟩
  · have hev : BatchingBolt.process_tick cfg pbOk st =
        { state := { st with tick_counter := st.tick_counter + 1 }
          events := [], ok := true } := by
      simp [BatchingBolt.process_tick, hc]
    rw [hev]
    constructor
    · constructor
      · rintro ⟨k, b, hkb⟩
        exact absurd hkb (List.not_mem_nil _)
      · rintro ⟨-, hx⟩
        exact absurd hx hc
    · rintro ⟨-, hx⟩
      exact absurd hx hc

/-- Witness for C1 (amended) at concrete inputs: threshold 1, counter 1,
one buffered tuple; the tick flushes and resets. -/
theorem batching_flush_iff_nonempty_and_exceeds_witness :
    (BatchingBolt.process_tick { ticks_between_batches := 1 } (fun _ _ => true)
      { batches := [(none, [{ id := "a", component := "c", stream := "s", task := 0, values := [] }])],
        tick_counter := 1, current_tups := [] }).state.tick_counter = 0 := by
  have h := batching_flush_iff_nonempty_and_exceeds { ticks_between_batches := 1 }
    (fun _ _ => true)
    { batches := [(none, [{ id := "a", component := "c", stream := "s", task := 0, values := [] }])],
      tick_counter := 1, current_tups := [] }
    (fun _ _ => rfl) (by decide)
  exact (h.2 ⟨⟨(none, [{ id := "a", component := "c", stream := "s", task := 0, values := [] }]),
    by decide, by decide⟩, by decide⟩).1

/-- The default-group `group_key` (returns `None`). -/
def gkNone : Tuple → Option String := fun _ => none

/-- A `process_batch` oracle that always succeeds. -/
def pbAlwaysOk : Option String → List Tuple → Bool := fun _ _ => true

/-- A concrete data tuple used in the C1 counterexample run. -/
def cexTup : Tuple :=
  { id := "a", component := "c", stream := "s", task := 0, values := [] }

/-- C1 counterexample run, threshold 1: tick, tick (counter reaches 2, no
flush since the buffers are empty), then a tuple arrives. -/
def cexState : BatchState :=
  BatchingBolt.process gkNone
    (BatchingBolt.process_tick { ticks_between_batches := 1 } pbAlwaysOk
      (BatchingBolt.process_tick { ticks_between_batches := 1 } pbAlwaysOk
        { batches := [], tick_counter := 0, current_tups := [] }).state).state
    cexTup

/-- Counterexample to C1 as stated: with threshold `n = 1`, two ticks on
empty buffers push the counter to 2 (the running count first exceeds `n`
at the second tick, where no flush occurs); a tuple then arrives and the
next tick flushes even though the counter (2, becoming 3) had already
exceeded `n` before this tick — i.e. the flush happens at a tick where the
running tick count does not *first* exceed `n`, refuting the claimed
"flush iff some group is non-empty and the count first exceeds n". -/
theorem batching_flush_not_first_exceed_cex :
    1 < cexState.tick_counter ∧
    (BatchingBolt.process_tick { ticks_between_batches := 1 } pbAlwaysOk
      cexState).events =
      [Event.processBatchCall none [cexTup], Event.send (OutCmd.ackId "a")] ∧
    (BatchingBolt.process_tick { ticks_between_batches := 1 } pbAlwaysOk
      cexState).state.tick_counter = 0 := by
  decide

/-- The C2 scenario tuples `t1`, `t2`, `t3`. -/
def c2t1 : Tuple :=
  { id := "t1", component := "spout", stream := "default", task := 3, values := [1] }

/-- Second scenario tuple. -/
def c2t2 : Tuple :=
  { id := "t2", component := "spout", stream := "default", task := 3, values := [2] }

/-- Third scenario tuple. -/
def c2t3 : Tuple :=
  { id := "t3", component := "spout", stream := "default", task := 3, values := [3] }

/-- C2 configuration: a bolt with `ticks_between_batches = 2`. -/
def c2cfg : BatchCfg := { ticks_between_batches := 2 }

/-- C2 state after `t1`, `t2`, `t3` arrive (single default group). -/
def c2s3 : BatchState :=
  BatchingBolt.process gkNone
    (BatchingBolt.process gkNone
      (BatchingBolt.process gkNone
        { batches := [], tick_counter := 0, current_tups := [] } c2t1) c2t2) c2t3

/-- C2 run: result of the first tick. -/
def c2r1 : StepResult := BatchingBolt.process_tick c2cfg pbAlwaysOk c2s3

/-- C2 run: result of the second tick. -/
def c2r2 : StepResult := BatchingBolt.process_tick c2cfg pbAlwaysOk c2r1.state

/-- C2 run: result of the third tick. -/
def c2r3 : StepResult := BatchingBolt.process_tick c2cfg pbAlwaysOk c2r2.state

/-- Counterexample to C2 as stated: with `ticks_between_batches = 2`, after
`t1,t2,t3` arrive the second tick does NOT cause a flush — the counter is 2,
which does not exceed 2 (the code requires `_tick_counter >
ticks_between_batches`): no `process_batch` call, no acks, counter left at
2, and the batch still holds all three tuples. -/
theorem batching_second_tick_no_flush_cex :
    c2r1.events = [] ∧
    c2r2.events = [] ∧
    c2r2.state.tick_counter = 2 ∧
    c2r2.state.batches = [(none, [c2t1, c2t2, c2t3])] := by
  decide

/-- Claim C2 (amended): in the scenario with `ticks_between_batches = 2`
and `t1,t2,t3` buffered, the first and second ticks cause no flush
(counter 1, then 2, neither exceeding 2); the THIRD tick causes the flush,
in which `process_batch(None, [t1,t2,t3])` is invoked exactly once, each
of `t1,t2,t3` is acked exactly once, the tick counter is reset to 0 and
the batches are cleared. -/
theorem batching_scenario_third_tick_flush :
    c2r1.events = [] ∧ c2r1.state.tick_counter = 1 ∧
    c2r2.events = [] ∧ c2r2.state.tick_counter = 2 ∧
    c2r3.events =
      [Event.processBatchCall none [c2t1, c2t2, c2t3],
       Event.send (OutCmd.ackId "t1"), Event.send (OutCmd.ackId "t2"),
       Event.send (OutCmd.ackId "t3")] ∧
    c2r3.state.tick_counter = 0 ∧
    c2r3.state.batches = [] := by
  decide

/-- Claim C10: when a tick arrives while the counter already exceeds
`ticks_between_batches` but `_batches` is empty, the counter is
incremented, not reset; hence once the counter has exceeded the threshold,
the first tick arriving after any tuple has been buffered triggers a flush
(a `process_batch` invocation) immediately. -/
theorem batching_tick_counter_not_reset_when_empty
    (cfg : BatchCfg) (pbOk : Option String → List Tuple → Bool)
    (st : BatchState)
    (h : cfg.ticks_between_batches < st.tick_counter) :
    (st.batches = [] →
      BatchingBolt.process_tick cfg pbOk st =
        { state := { st with tick_counter := st.tick_counter + 1 }
          events := [], ok := true }) ∧
    (st.batches ≠ [] →
      ∃ k b, Event.processBatchCall k b ∈ (BatchingBolt.process_tick cfg pbOk st).events) := by
  have hc : cfg.ticks_between_batches < st.tick_counter + 1 := Nat.lt_succ_of_lt h
  constructor
  · intro hb
    simp [BatchingBolt.process_tick, hc, hb]
  · intro hb
    obtain ⟨⟨k, b⟩, rest, hq⟩ : ∃ p rest, st.batches = p :: rest := by
      rcases hx : st.batches with _ | ⟨p, rest⟩
      · exact absurd hx hb
      · exact ⟨p, rest, rfl⟩
    have hev : (BatchingBolt.process_tick cfg pbOk st).events =
        (flushLoop cfg.auto_ack pbOk st.current_tups st.batches).events := by
      unfold BatchingBolt.process_tick
      rw [if_pos hc, if_neg hb]
      by_cases hfo : (flushLoop cfg.auto_ack pbOk st.current_tups st.batches).ok <;>
        simp [hfo]
    rw [hev, hq]
    exact ⟨k, b, flushLoopHeadCall _ _ _ _ _ _⟩

/-- Witness for C10 at concrete inputs: threshold 1, counter already 2. -/
theorem batching_tick_counter_not_reset_when_empty_witness :
    BatchingBolt.process_tick { ticks_between_batches := 1 } pbAlwaysOk
      { batches := [], tick_counter := 2, current_tups := [] } =
      { state := { batches := [], tick_counter := 3, current_tups := [] }
        events := [], ok := true } ∧
    ∃ k b, Event.processBatchCall k b ∈
      (BatchingBolt.process_tick { ticks_between_batches := 1 } pbAlwaysOk
        { batches := [(none, [cexTup])], tick_counter := 2, current_tups := [] }).events := by
  constructor
  · exact (batching_tick_counter_not_reset_when_empty { ticks_between_batches := 1 }
      pbAlwaysOk { batches := [], tick_counter := 2, current_tups := [] }
      (by decide)).1 rfl
  · exact (batching_tick_counter_not_reset_when_empty { ticks_between_batches := 1 }
      pbAlwaysOk { batches := [(none, [cexTup])], tick_counter := 2, current_tups := [] }
      (by decide)).2 (by decide)

/-- A `fail` command for id `i` is among the handler's fail pass exactly
when `i` is buffered in some group. -/
theorem memFailAll (l : List (Option String × List Tuple)) (i : String) :
    Event.send (OutCmd.failId i) ∈ failAll l ↔ i ∈ allBatchIds l := by
  induction l with
  | nil => simp [failAll, allBatchIds]
  | cons p rest ih =>
    rcases p with ⟨k, b⟩
    simp [failAll, allBatchIds, batchIds, ih]

/-- Claim C9: in `BatchingBolt` with `auto_fail` on, if an unhandled
exception is raised while dispatching a data tuple before it is appended
to any batch (here: `group_key` raises), the failure handler fails exactly
the tuples currently stored in the batch buffers; the tuple being
processed is never failed, and the process exits with status 1. -/
theorem batching_prebuffer_exception_fails_only_buffered
    (cfg : BatchCfg) (hooks : BatchHooks) (st : BatchState) (tup : Tuple)
    (haf : cfg.auto_fail = true)
    (hhb : ¬(tup.task = -1 ∧ tup.stream = "__heartbeat"))
    (htk : ¬(tup.component = "__system" ∧ tup.stream = "__tick"))
    (hgk : hooks.group_key tup = Except.error ())
    (hid : tup.id ∉ allBatchIds st.batches) :
    (BatchingBolt.runIter cfg hooks st tup).ok = false ∧
    (BatchingBolt.runIter cfg hooks st tup).state.batches = st.batches ∧
    (∀ i, Event.send (OutCmd.failId i) ∈ (BatchingBolt.runIter cfg hooks st tup).events ↔
      i ∈ allBatchIds st.batches) ∧
    Event.send (OutCmd.failId tup.id) ∉ (BatchingBolt.runIter cfg hooks st tup).events ∧
    (BatchingBolt.runIter cfg hooks st tup).events.getLast? = some (Event.exitProc 1) := by
  have hstep : BatchingBolt.runStep cfg hooks st tup =
      { state := { st with current_tups := [tup] }, events := [], ok := false } := by
    simp [BatchingBolt.runStep, hhb, htk, hgk]
  have hiter : BatchingBolt.runIter cfg hooks st tup =
      { state := { st with current_tups := [tup] },
        events := Event.raiseExc [tup] :: (failAll st.batches ++ [Event.exitProc 1]),
        ok := false } := by
    simp [BatchingBolt.runIter, hstep, BatchingBolt.handle_run_exception, haf]
  rw [hiter]
  refine ⟨rfl, rfl, ?_, ?_, ?_⟩
  · intro i
    simp [memFailAll]
  · simp [memFailAll, hid]
  · rw [show Event.raiseExc [tup] :: (failAll st.batches ++ [Event.exitProc 1]) =
      (Event.raiseExc [tup] :: failAll st.batches) ++ [Event.exitProc 1] by simp]
    exact lastOfAppendSingleton _ _

/-- Witness for C9 at concrete inputs: `group_key` raises on tuple "a"
while "t1" is buffered; only "t1" is failed, "a" is not, and the process
exits with 1. -/
theorem batching_prebuffer_exception_fails_only_buffered_witness :
    Event.send (OutCmd.failId "t1") ∈
      (BatchingBolt.runIter {} { group_key := fun _ => Except.error (), pbOk := pbAlwaysOk }
        { batches := [(none, [c2t1])], tick_counter := 0, current_tups := [] } cexTup).events ∧
    Event.send (OutCmd.failId "a") ∉
      (BatchingBolt.runIter {} { group_key := fun _ => Except.error (), pbOk := pbAlwaysOk }
        { batches := [(none, [c2t1])], tick_counter := 0, current_tups := [] } cexTup).events := by
  have h := batching_prebuffer_exception_fails_only_buffered {}
    { group_key := fun _ => Except.error (), pbOk := pbAlwaysOk }
    { batches := [(none, [c2t1])], tick_counter := 0, current_tups := [] } cexTup
    rfl (by decide) (by decide) rfl (by decide)
  exact ⟨(h.2.2.1 "t1").mpr (by decide), h.2.2.2.1⟩

/-- `allBatchIds` distributes over append. -/
theorem allBatchIdsAppend (l1 l2 : List (Option String × List Tuple)) :
    allBatchIds (l1 ++ l2) = allBatchIds l1 ++ allBatchIds l2 := by
  induction l1 with
  | nil => rfl
  | cons p rest ih =>
    rcases p with ⟨k, b⟩
    simp [allBatchIds, ih]

/-- `failAll` distributes over append. -/
theorem failAllAppend (l1 l2 : List (Option String × List Tuple)) :
    failAll (l1 ++ l2) = failAll l1 ++ failAll l2 := by
  induction l1 with
  | nil => rfl
  | cons p rest ih =>
    rcases p with ⟨k, b⟩
    simp [failAll, ih]

/-- Failing over groups whose batches were all set to `[]` fails
nothing. -/
theorem failAllEmptied (l : List (Option String × List Tuple)) :
    failAll (l.map (fun p => (p.1, ([] : List Tuple)))) = [] := by
  induction l with
  | nil => rfl
  | cons p rest ih => simp [failAll, ih]

/-- An id is buffered iff some group's batch contains it. -/
theorem memAllBatchIds (l : List (Option String × List Tuple)) (i : String) :
    i ∈ allBatchIds l ↔ ∃ p ∈ l, i ∈ batchIds p.2 := by
  induction l with
  | nil => simp [allBatchIds]
  | cons p rest ih =>
    rcases p with ⟨k, b⟩
    simp [allBatchIds, ih]

/-- The events of the groups successfully flushed before a failure: one
`process_batch` call per group followed (when `auto_ack` is on) by one ack
per tuple. -/
def doneEvents (a : Bool) : List (Option String × List Tuple) → List Event
  | [] => []
  | (k, b) :: rest =>
    (Event.processBatchCall k b ::
      (if a then b.map (fun t => Event.send (OutCmd.ackId t.id)) else [])) ++
      doneEvents a rest

/-- The flush events of already-processed groups contain no `fail`
command. -/
theorem doneEventsNoFail (a : Bool) (l : List (Option String × List Tuple))
    (i : String) : Event.send (OutCmd.failId i) ∉ doneEvents a l := by
  induction l with
  | nil => simp [doneEvents]
  | cons p rest ih =>
    rcases p with ⟨k, b⟩
    intro hmem
    rcases List.mem_append.mp hmem with h1 | h2
    · rcases List.mem_cons.mp h1 with h3 | h4
      · exact absurd h3 (by simp)
      · by_cases ha : a
        · rw [if_pos ha] at h4
          obtain ⟨t, -, ht⟩ := List.mem_map.mp h4
          exact absurd ht (by simp)
        · rw [if_neg ha] at h4
          exact absurd h4 (List.not_mem_nil _)
    · exact ih h2

/-- Shape of the flush loop when `process_batch` succeeds on a prefix of
groups and raises on the next one: the successful groups' batches are
emptied one by one (each immediately after its own ack pass), the failing
group and all later groups keep their batches, `_current_tups` is the
failing batch, and the events are the successful groups' calls and acks
followed by the failing call. -/
theorem flushLoopPartition (a : Bool) (pbOk : Option String → List Tuple → Bool)
    (gk : Option String) (gb : List Tuple)
    (rest : List (Option String × List Tuple)) (hfail : pbOk gk gb = false) :
    ∀ (done : List (Option String × List Tuple)) (cur : List Tuple),
    (∀ p ∈ done, pbOk p.1 p.2 = true) →
    flushLoop a pbOk cur (done ++ (gk, gb) :: rest) =
      { batches := done.map (fun p => (p.1, [])) ++ (gk, gb) :: rest,
        current_tups := gb,
        events := doneEvents a done ++ [Event.processBatchCall gk gb],
        ok := false } := by
  intro done
  induction done with
  | nil =>
    intro cur _
    simp [flushLoop, hfail, doneEvents]
  | cons p done' ih =>
    intro cur hdone
    rcases p with ⟨k, b⟩
    have hk : pbOk k b = true := hdone (k, b) (List.mem_cons_self _ _)
    rw [List.cons_append]
    simp only [flushLoop, hk, if_true]
    rw [ih b (fun q hq => hdone q (List.mem_cons_of_mem _ hq))]
    simp [doneEvents, List.append_assoc]

/-- Counting `fail i` among the fails of one batch counts `i` among the
batch's ids. -/
theorem countFailBatch (b : List Tuple) (i : String) :
    (b.map (fun t => Event.send (OutCmd.failId t.id))).count
      (Event.send (OutCmd.failId i)) = (batchIds b).count i := by
  induction b with
  | nil => rfl
  | cons t rest ih =>
    simp only [List.map_cons, batchIds, List.count_cons, ih, batchIds]
    by_cases h : t.id = i <;> simp [h, batchIds]

/-- Counting `fail i` among the handler's fail pass counts `i` among all
buffered ids. -/
theorem countFailAll (l : List (Option String × List Tuple)) (i : String) :
    (failAll l).count (Event.send (OutCmd.failId i)) = (allBatchIds l).count i := by
  induction l with
  | nil => rfl
  | cons p rest ih =>
    rcases p with ⟨k, b⟩
    simp [failAll, allBatchIds, List.count_append, countFailBatch, ih]

/-- The events of a tick dispatch whose flush raises, followed by the
events of `BatchingBolt._handle_run_exception` catching that exception in
`run`. -/
def tickThenCrash (cfg : BatchCfg) (pbOk : Option String → List Tuple → Bool)
    (st : BatchState) : List Event :=
  (BatchingBolt.process_tick cfg pbOk st).events ++
    BatchingBolt.handle_run_exception cfg (BatchingBolt.process_tick cfg pbOk st).state

/-- Claim C3: in a flush pass where `process_batch` succeeds on the groups
`done`, raises on group `(gk, gb)`, with groups `rest` still scheduled,
and `auto_fail` is on: every tuple of the failing group and of every
not-yet-flushed group is failed exactly once, no tuple of the
already-flushed-and-acked groups is ever failed, and the process exits
with status 1 — because each flushed group's batch is set to `[]`
immediately after its own ack pass, before the next group is processed. -/
theorem batching_flush_failure_fails_pending_only
    (cfg : BatchCfg) (pbOk : Option String → List Tuple → Bool) (st : BatchState)
    (done rest : List (Option String × List Tuple)) (gk : Option String)
    (gb : List Tuple)
    (haf : cfg.auto_fail = true)
    (_hack : cfg.auto_ack = true)
    (hsplit : st.batches = done ++ (gk, gb) :: rest)
    (hdone : ∀ p ∈ done, pbOk p.1 p.2 = true)
    (hfail : pbOk gk gb = false)
    (hc : cfg.ticks_between_batches < st.tick_counter + 1)
    (hnd : (allBatchIds st.batches).Nodup) :
    (BatchingBolt.process_tick cfg pbOk st).ok = false ∧
    (BatchingBolt.process_tick cfg pbOk st).state.batches =
      done.map (fun p => (p.1, [])) ++ (gk, gb) :: rest ∧
    (∀ t ∈ gb,
      (tickThenCrash cfg pbOk st).count (Event.send (OutCmd.failId t.id)) = 1) ∧
    (∀ p ∈ rest, ∀ t ∈ p.2,
      (tickThenCrash cfg pbOk st).count (Event.send (OutCmd.failId t.id)) = 1) ∧
    (∀ p ∈ done, ∀ t ∈ p.2,
      Event.send (OutCmd.failId t.id) ∉ tickThenCrash cfg pbOk st) ∧
    (tickThenCrash cfg pbOk st).getLast? = some (Event.exitProc 1) := by
  have hb : st.batches ≠ [] := by simp [hsplit]
  have hfl := flushLoopPartition cfg.auto_ack pbOk gk gb rest hfail done
    st.current_tups hdone
  have hpt : BatchingBolt.process_tick cfg pbOk st =
      { state :=
          { batches := done.map (fun p => (p.1, [])) ++ (gk, gb) :: rest,
            tick_counter := st.tick_counter + 1,
            current_tups := gb },
        events := doneEvents cfg.auto_ack done ++ [Event.processBatchCall gk gb],
        ok := false } := by
    unfold BatchingBolt.process_tick
    rw [if_pos hc, if_neg hb]
    rw [hsplit, hfl]
    simp
  have hcrash : tickThenCrash cfg pbOk st =
      (doneEvents cfg.auto_ack done ++ [Event.processBatchCall gk gb]) ++
        (Event.raiseExc gb ::
          ((failAll ((gk, gb) :: rest)) ++ [Event.exitProc 1])) := by
    rw [tickThenCrash, hpt]
    simp only [BatchingBolt.handle_run_exception, haf, if_true]
    rw [failAllAppend, failAllEmptied, List.nil_append]
    simp [List.append_assoc]
  have hnd2 : (allBatchIds ((gk, gb) :: rest)).Nodup ∧
      (allBatchIds done).Disjoint (allBatchIds ((gk, gb) :: rest)) := by
    rw [hsplit, allBatchIdsAppend] at hnd
    have h2 := List.nodup_append.mp hnd
    exact ⟨h2.2.1, h2.2.2⟩
  have hcount : ∀ i, (tickThenCrash cfg pbOk st).count (Event.send (OutCmd.failId i)) =
      (allBatchIds ((gk, gb) :: rest)).count i := by
    intro i
    rw [hcrash]
    simp [List.count_append, List.count_cons, countFailAll,
      List.count_eq_zero.mpr (doneEventsNoFail cfg.auto_ack done i)]
  refine ⟨by rw [hpt], by rw [hpt], ?_, ?_, ?_, ?_⟩
  · intro t ht
    rw [hcount]
    refine List.count_eq_one_of_mem hnd2.1 ?_
    have : t.id ∈ batchIds gb := List.mem_map.mpr ⟨t, ht, rfl⟩
    simp only [allBatchIds]
    exact List.mem_append_left _ this
  · intro p hp t ht
    rw [hcount]
    refine List.count_eq_one_of_mem hnd2.1 ?_
    have : t.id ∈ allBatchIds rest :=
      (memAllBatchIds rest t.id).mpr ⟨p, hp, List.mem_map.mpr ⟨t, ht, rfl⟩⟩
    simp only [allBatchIds]
    exact List.mem_append_right _ this
  · intro p hp t ht
    have hmemd : t.id ∈ allBatchIds done :=
      (memAllBatchIds done t.id).mpr ⟨p, hp, List.mem_map.mpr ⟨t, ht, rfl⟩⟩
    have hnot : t.id ∉ allBatchIds ((gk, gb) :: rest) := hnd2.2 hmemd
    have : (tickThenCrash cfg pbOk st).count (Event.send (OutCmd.failId t.id)) = 0 := by
      rw [hcount]
      exact List.count_eq_zero.mpr hnot
    exact List.count_eq_zero.mp this
  · rw [hcrash]
    rw [show Event.raiseExc gb :: (failAll ((gk, gb) :: rest) ++ [Event.exitProc 1]) =
      (Event.raiseExc gb :: failAll ((gk, gb) :: rest)) ++ [Event.exitProc 1] by simp]
    rw [← List.append_assoc]
    exact lastOfAppendSingleton _ _

/-- Witness for C3 at concrete inputs: groups "a" (flushed), "b" (raises),
"c" (pending); "t2" and "t3" are failed once each, "t1" never, and the
process exits with 1. -/
theorem batching_flush_failure_fails_pending_only_witness :
    (tickThenCrash {} (fun k _ => decide (k ≠ some "b"))
      { batches := [(some "a", [c2t1]), (some "b", [c2t2]), (some "c", [c2t3])],
        tick_counter := 1, current_tups := [] }).count
      (Event.send (OutCmd.failId "t2")) = 1 ∧
    Event.send (OutCmd.failId "t1") ∉
      tickThenCrash {} (fun k _ => decide (k ≠ some "b"))
        { batches := [(some "a", [c2t1]), (some "b", [c2t2]), (some "c", [c2t3])],
          tick_counter := 1, current_tups := [] } := by
  have h := batching_flush_failure_fails_pending_only {}
    (fun k _ => decide (k ≠ some "b"))
    { batches := [(some "a", [c2t1]), (some "b", [c2t2]), (some "c", [c2t3])],
      tick_counter := 1, current_tups := [] }
    [(some "a", [c2t1])] [(some "c", [c2t3])] (some "b") [c2t2]
    rfl rfl rfl (by decide) (by decide) (by decide) (by decide)
  exact ⟨h.2.2.1 c2t2 (by decide), h.2.2.2.2.1 (some "a", [c2t1]) (by decide) c2t1 (by decide)⟩

/-- The events of thread `t` in a two-thread schedule (each schedule entry
is a thread tag and a wire event). -/
def projOf (t : Bool) : List (Bool × WireEvent) → List WireEvent
  | [] => []
  | (b, e) :: rest => if b = t then e :: projOf t rest else projOf t rest

/-- Semantics of the writer lock over a schedule: `none` means free,
`some t` means held by thread `t`; acquiring a held lock or releasing a
lock one does not hold is invalid (`none` result). Events other than
acquire/release of the writer lock do not touch it. -/
def runWLock : Option Bool → List (Bool × WireEvent) → Option (Option Bool)
  | h, [] => some h
  | h, (t, e) :: rest =>
    match e with
    | WireEvent.acquireWriter =>
      match h with
      | none => runWLock (some t) rest
      | some _ => none
    | WireEvent.releaseWriter =>
      match h with
      | some t2 => if t2 = t then runWLock none rest else none
      | none => none
    | _ => runWLock h rest

/-- A thread whose remaining trace is `l` is inside its writer-lock
critical section: it has already acquired (no acquire remains) but not yet
released. -/
def midCrit (l : List WireEvent) : Prop :=
  WireEvent.acquireWriter ∉ l ∧ WireEvent.releaseWriter ∈ l

/-- The writer-lock holder matches which thread is mid-critical-section,
given the remaining traces `sa` (thread `false`) and `sb` (thread
`true`). -/
def lockConsistent (h : Option Bool) (sa sb : List WireEvent) : Prop :=
  match h with
  | none => ¬ midCrit sa ∧ ¬ midCrit sb
  | some false => midCrit sa ∧ ¬ midCrit sb
  | some true => ¬ midCrit sa ∧ midCrit sb

/-- The shape of every `Bolt.emit` event trace: acquire both locks, send,
optionally read, release both locks. -/
def emitTraceShape (m : EmitMsg) (mid : List WireEvent) : List WireEvent :=
  [WireEvent.acquireReader, WireEvent.acquireWriter, WireEvent.sendMsg m] ++ mid ++
    [WireEvent.releaseWriter, WireEvent.releaseReader]

/-- Every `Bolt.emit` trace has the lock-bracketed shape, with the middle
part empty or a single response-read. -/
theorem emitShape (st : BoltState) (tup : List Int) (stream : Option String)
    (anchors : Option (List Anchor)) (direct_task : Option Int)
    (need_task_ids : Option Bool) (response : List Int) :
    ∃ m mid, (Bolt.emit st tup stream anchors direct_task need_task_ids response).1 =
        emitTraceShape m mid ∧ (mid = [] ∨ mid = [WireEvent.readIds]) := by
  unfold Bolt.emit
  rcases need_task_ids with _ | b
  · exact ⟨_, [], rfl, Or.inl rfl⟩
  · rcases b with _ | _
    · exact ⟨_, [], rfl, Or.inl rfl⟩
    · rcases direct_task with _ | T
      · exact ⟨_, [WireEvent.readIds], rfl, Or.inr rfl⟩
      · exact ⟨_, [], rfl, Or.inl rfl⟩

/-- Dropping the head of a suffix gives a suffix. -/
theorem suffixTail {α : Type} (e : α) (s l : List α) (h : (e :: s) <:+ l) :
    s <:+ l :=
  (List.suffix_cons e s).trans h

/-- Enumeration of the suffixes of a five-element list. -/
theorem suffixEnum5 {α : Type} (a b c d e : α) (s : List α)
    (h : s <:+ [a, b, c, d, e]) :
    s = [a,b,c,d,e] ∨ s = [b,c,d,e] ∨ s = [c,d,e] ∨ s = [d,e] ∨ s = [e] ∨
    s = [] := by
  simp only [List.suffix_cons_iff, List.suffix_nil] at h
  tauto

/-- Enumeration of the suffixes of a six-element list. -/
theorem suffixEnum6 {α : Type} (a b c d e f : α) (s : List α)
    (h : s <:+ [a, b, c, d, e, f]) :
    s = [a,b,c,d,e,f] ∨ s = [b,c,d,e,f] ∨ s = [c,d,e,f] ∨ s = [d,e,f] ∨
    s = [e,f] ∨ s = [f] ∨ s = [] := by
  simp only [List.suffix_cons_iff, List.suffix_nil] at h
  tauto

/-- Projection of a schedule step taken by the same thread. -/
theorem projOfConsSame (t : Bool) (e : WireEvent) (rest : List (Bool × WireEvent)) :
    projOf t ((t, e) :: rest) = e :: projOf t rest := by
  simp [projOf]

/-- Projection of a schedule step taken by the other thread. -/
theorem projOfConsOther (t t2 : Bool) (e : WireEvent)
    (rest : List (Bool × WireEvent)) (h : t2 ≠ t) :
    projOf t ((t2, e) :: rest) = projOf t rest := by
  simp [projOf, h]

/-- An event of thread `t` in the schedule appears in `t`'s projection. -/
theorem memProjOf (t : Bool) (e : WireEvent) (s : List (Bool × WireEvent))
    (h : (t, e) ∈ s) : e ∈ projOf t s := by
  induction s with
  | nil => exact absurd h (List.not_mem_nil _)
  | cons hd rest ih =>
    rcases hd with ⟨b, x⟩
    rcases List.mem_cons.mp h with h1 | h2
    · obtain ⟨rfl, rfl⟩ : b = t ∧ x = e := by
        injection h1 with h3 h4
        exact ⟨h3.symm, h4.symm⟩
      rw [projOfConsSame]
      exact List.mem_cons_self _ _
    · by_cases hb : b = t
      · subst hb
        rw [projOfConsSame]
        exact List.mem_cons_of_mem _ (ih h2)
      · rw [projOfConsOther _ _ _ _ hb]
        exact ih h2

/-- Consuming a non-writer-lock event does not change critical-section
status. -/
theorem midCritCons (e : WireEvent) (l : List WireEvent)
    (h1 : e ≠ WireEvent.acquireWriter) (h2 : e ≠ WireEvent.releaseWriter) :
    midCrit (e :: l) ↔ midCrit l := by
  unfold midCrit
  constructor
  · rintro ⟨ha, hr⟩
    refine ⟨fun hx => ha (List.mem_cons_of_mem _ hx), ?_⟩
    rcases List.mem_cons.mp hr with h | h
    · exact absurd h.symm h2
    · exact h
  · rintro ⟨ha, hr⟩
    refine ⟨?_, List.mem_cons_of_mem _ hr⟩
    intro hx
    rcases List.mem_cons.mp hx with h | h
    · exact absurd h.symm h1
    · exact ha h

/-- `lockConsistent` is preserved when thread `false` consumes a
non-writer-lock event. -/
theorem lockConsistentConsA (h : Option Bool) (e : WireEvent)
    (sa sb : List WireEvent) (h1 : e ≠ WireEvent.acquireWriter)
    (h2 : e ≠ WireEvent.releaseWriter) :
    lockConsistent h (e :: sa) sb ↔ lockConsistent h sa sb := by
  rcases h with _ | t
  · unfold lockConsistent
    rw [midCritCons e sa h1 h2]
  · rcases t with _ | _ <;>
    · unfold lockConsistent
      rw [midCritCons e sa h1 h2]

/-- `lockConsistent` is preserved when thread `true` consumes a
non-writer-lock event. -/
theorem lockConsistentConsB (h : Option Bool) (e : WireEvent)
    (sa sb : List WireEvent) (h1 : e ≠ WireEvent.acquireWriter)
    (h2 : e ≠ WireEvent.releaseWriter) :
    lockConsistent h sa (e :: sb) ↔ lockConsistent h sa sb := by
  rcases h with _ | t
  · unfold lockConsistent
    rw [midCritCons e sb h1 h2]
  · rcases t with _ | _ <;>
    · unfold lockConsistent
      rw [midCritCons e sb h1 h2]

/-- Stepping the writer lock over a non-writer-lock event. -/
theorem runWLockConsOther (h : Option Bool) (t : Bool) (e : WireEvent)
    (rest : List (Bool × WireEvent)) (h1 : e ≠ WireEvent.acquireWriter)
    (h2 : e ≠ WireEvent.releaseWriter) :
    runWLock h ((t, e) :: rest) = runWLock h rest := by
  cases e
  · rfl
  · exact absurd rfl h1
  · rfl
  · rfl
  · exact absurd rfl h2
  · rfl

/-- Stepping the writer lock over an acquire. -/
theorem runWLockConsAcquire (h : Option Bool) (t : Bool)
    (rest : List (Bool × WireEvent)) :
    runWLock h ((t, WireEvent.acquireWriter) :: rest) =
      match h with
      | none => runWLock (some t) rest
      | some _ => none := rfl

/-- Stepping the writer lock over a release. -/
theorem runWLockConsRelease (h : Option Bool) (t : Bool)
    (rest : List (Bool × WireEvent)) :
    runWLock h ((t, WireEvent.releaseWriter) :: rest) =
      match h with
      | some t2 => if t2 = t then runWLock none rest else none
      | none => none := rfl

/-- Suffix of the reading emit trace starting at the writer-lock
acquire. -/
theorem trAsuffixAW (m : EmitMsg) (s : List WireEvent)
    (h : (WireEvent.acquireWriter :: s) <:+ emitTraceShape m [WireEvent.readIds]) :
    s = [WireEvent.sendMsg m, WireEvent.readIds, WireEvent.releaseWriter,
         WireEvent.releaseReader] := by
  have h6 := suffixEnum6 WireEvent.acquireReader WireEvent.acquireWriter
    (WireEvent.sendMsg m) WireEvent.readIds WireEvent.releaseWriter
    WireEvent.releaseReader _ (by simpa [emitTraceShape] using h)
  rcases h6 with h|h|h|h|h|h|h <;> simp_all

/-- Suffix of the reading emit trace starting at the writer-lock
release. -/
theorem trAsuffixRW (m : EmitMsg) (s : List WireEvent)
    (h : (WireEvent.releaseWriter :: s) <:+ emitTraceShape m [WireEvent.readIds]) :
    s = [WireEvent.releaseReader] := by
  have h6 := suffixEnum6 WireEvent.acquireReader WireEvent.acquireWriter
    (WireEvent.sendMsg m) WireEvent.readIds WireEvent.releaseWriter
    WireEvent.releaseReader _ (by simpa [emitTraceShape] using h)
  rcases h6 with h|h|h|h|h|h|h <;> simp_all

/-- Suffix of the reading emit trace starting at the send. -/
theorem trAsuffixSend (m x : EmitMsg) (s : List WireEvent)
    (h : (WireEvent.sendMsg x :: s) <:+ emitTraceShape m [WireEvent.readIds]) :
    x = m ∧ s = [WireEvent.readIds, WireEvent.releaseWriter,
                 WireEvent.releaseReader] := by
  have h6 := suffixEnum6 WireEvent.acquireReader WireEvent.acquireWriter
    (WireEvent.sendMsg m) WireEvent.readIds WireEvent.releaseWriter
    WireEvent.releaseReader _ (by simpa [emitTraceShape] using h)
  rcases h6 with h|h|h|h|h|h|h <;> simp_all

/-- Suffix of a general emit trace starting at the writer-lock acquire. -/
theorem trBsuffixAW (m : EmitMsg) (midB : List WireEvent)
    (hmid : midB = [] ∨ midB = [WireEvent.readIds]) (s : List WireEvent)
    (h : (WireEvent.acquireWriter :: s) <:+ emitTraceShape m midB) :
    s = WireEvent.sendMsg m :: midB ++
        [WireEvent.releaseWriter, WireEvent.releaseReader] := by
  rcases hmid with rfl | rfl
  · have h5 := suffixEnum5 WireEvent.acquireReader WireEvent.acquireWriter
      (WireEvent.sendMsg m) WireEvent.releaseWriter WireEvent.releaseReader _
      (by simpa [emitTraceShape] using h)
    rcases h5 with h|h|h|h|h|h <;> simp_all
  · have h6 := suffixEnum6 WireEvent.acquireReader WireEvent.acquireWriter
      (WireEvent.sendMsg m) WireEvent.readIds WireEvent.releaseWriter
      WireEvent.releaseReader _ (by simpa [emitTraceShape] using h)
    rcases h6 with h|h|h|h|h|h|h <;> simp_all

/-- Suffix of a general emit trace starting at the writer-lock release. -/
theorem trBsuffixRW (m : EmitMsg) (midB : List WireEvent)
    (hmid : midB = [] ∨ midB = [WireEvent.readIds]) (s : List WireEvent)
    (h : (WireEvent.releaseWriter :: s) <:+ emitTraceShape m midB) :
    s = [WireEvent.releaseReader] := by
  rcases hmid with rfl | rfl
  · have h5 := suffixEnum5 WireEvent.acquireReader WireEvent.acquireWriter
      (WireEvent.sendMsg m) WireEvent.releaseWriter WireEvent.releaseReader _
      (by simpa [emitTraceShape] using h)
    rcases h5 with h|h|h|h|h|h <;> simp_all
  · have h6 := suffixEnum6 WireEvent.acquireReader WireEvent.acquireWriter
      (WireEvent.sendMsg m) WireEvent.readIds WireEvent.releaseWriter
      WireEvent.releaseReader _ (by simpa [emitTraceShape] using h)
    rcases h6 with h|h|h|h|h|h|h <;> simp_all

/-- Suffix of a general emit trace starting at the send. -/
theorem trBsuffixSend (m : EmitMsg) (midB : List WireEvent)
    (hmid : midB = [] ∨ midB = [WireEvent.readIds]) (x : EmitMsg)
    (s : List WireEvent)
    (h : (WireEvent.sendMsg x :: s) <:+ emitTraceShape m midB) :
    x = m ∧ s = midB ++ [WireEvent.releaseWriter, WireEvent.releaseReader] := by
  rcases hmid with rfl | rfl
  · have h5 := suffixEnum5 WireEvent.acquireReader WireEvent.acquireWriter
      (WireEvent.sendMsg m) WireEvent.releaseWriter WireEvent.releaseReader _
      (by simpa [emitTraceShape] using h)
    rcases h5 with h|h|h|h|h|h <;> simp_all
  · have h6 := suffixEnum6 WireEvent.acquireReader WireEvent.acquireWriter
      (WireEvent.sendMsg m) WireEvent.readIds WireEvent.releaseWriter
      WireEvent.releaseReader _ (by simpa [emitTraceShape] using h)
    rcases h6 with h|h|h|h|h|h|h <;> simp_all

/-- A thread that has just sent (with a pending read) is
mid-critical-section. -/
theorem midCritAfterSendB (m : EmitMsg) (midB : List WireEvent)
    (hmid : midB = [] ∨ midB = [WireEvent.readIds]) :
    midCrit (WireEvent.sendMsg m :: midB ++
      [WireEvent.releaseWriter, WireEvent.releaseReader]) := by
  rcases hmid with rfl | rfl <;> simp [midCrit]

/-- No full emit trace is mid-critical-section (its acquire is still
ahead). -/
theorem notMidCritShape (m : EmitMsg) (mid : List WireEvent) :
    ¬ midCrit (emitTraceShape m mid) := by
  rintro ⟨ha, -⟩
  exact ha (by simp [emitTraceShape])

/-- Core lemma, second phase: thread `false` has sent and still has its
read, writer-release and reader-release ahead, and holds the writer lock.
In any lock-valid continuation, thread `true` cannot send before thread
`false` performs its read. -/
theorem noFinishLemma (mB : EmitMsg) (midB : List WireEvent)
    (hmidB : midB = [] ∨ midB = [WireEvent.readIds]) :
    ∀ (s : List (Bool × WireEvent)),
    projOf false s = [WireEvent.readIds, WireEvent.releaseWriter,
      WireEvent.releaseReader] →
    ∀ sb : List WireEvent, projOf true s = sb →
    sb <:+ emitTraceShape mB midB →
    ¬ midCrit sb →
    (runWLock (some false) s).isSome →
    ∀ (mB2 : EmitMsg) (q r u : List (Bool × WireEvent)),
      s ≠ q ++ (true, WireEvent.sendMsg mB2) :: r ++
        (false, WireEvent.readIds) :: u := by
  intro s
  induction s with
  | nil =>
    intro hpf
    exact absurd hpf (by simp [projOf])
  | cons hd s2 ih =>
    intro hpf sb hpt hsfx hnmid hlock mB2 q r u heq
    rcases hd with ⟨t, e⟩
    rcases q with _ | ⟨hd2, q2⟩
    · rw [List.nil_append] at heq
      injection heq with h1 h2
      injection h1 with ht he
      subst ht
      subst he
      rw [projOfConsSame] at hpt
      subst hpt
      obtain ⟨-, hsb2⟩ := trBsuffixSend mB midB hmidB mB2 _ hsfx
      rw [hsb2] at hnmid
      exact hnmid (midCritAfterSendB mB2 midB hmidB)
    · rw [List.cons_append] at heq
      injection heq with h1 h2
      rcases t with _ | _
      · rw [projOfConsSame] at hpf
        injection hpf with he hpf2
        subst he
        have hy : (false, WireEvent.readIds) ∈ s2 := by
          rw [h2]
          simp
        have hmem := memProjOf false WireEvent.readIds s2 hy
        rw [hpf2] at hmem
        simp at hmem
      · rw [projOfConsOther false true e s2 (by simp)] at hpf
        rw [projOfConsSame] at hpt
        subst hpt
        have hsfx2 : projOf true s2 <:+ emitTraceShape mB midB :=
          suffixTail _ _ _ hsfx
        by_cases heaw : e = WireEvent.acquireWriter
        · subst heaw
          rw [runWLockConsAcquire] at hlock
          simp at hlock
        · by_cases herw : e = WireEvent.releaseWriter
          · subst herw
            rw [runWLockConsRelease] at hlock
            simp at hlock
          · have hnmid2 : ¬ midCrit (projOf true s2) := by
              intro hx
              exact hnmid ((midCritCons e _ heaw herw).mpr hx)
            have hlock2 : (runWLock (some false) s2).isSome := by
              rw [runWLockConsOther (some false) true e s2 heaw herw] at hlock
              exact hlock
            exact ih hpf (projOf true s2) rfl hsfx2 hnmid2 hlock2 mB2 q2 r u h2

/-- Core mutual-exclusion lemma: in any writer-lock-valid schedule whose
thread projections are suffixes of two emit traces (thread `false` reads,
thread `true` arbitrary), consistent with the current lock holder, thread
`true` can never send between thread `false`'s send and its read. -/
theorem wlockExclusionCore (mA mB : EmitMsg) (midB : List WireEvent)
    (hmidB : midB = [] ∨ midB = [WireEvent.readIds]) :
    ∀ (s : List (Bool × WireEvent)),
    ∀ sa : List WireEvent, projOf false s = sa →
    ∀ sb : List WireEvent, projOf true s = sb →
    sa <:+ emitTraceShape mA [WireEvent.readIds] →
    sb <:+ emitTraceShape mB midB →
    ∀ h : Option Bool, lockConsistent h sa sb →
    (runWLock h s).isSome →
    ∀ (mA2 mB2 : EmitMsg) (p q r u : List (Bool × WireEvent)),
      s ≠ p ++ (false, WireEvent.sendMsg mA2) :: q ++
        (true, WireEvent.sendMsg mB2) :: r ++
        (false, WireEvent.readIds) :: u := by
  intro s
  induction s with
  | nil =>
    intro sa hpf sb hpt hsfxa hsfxb h hcons hlock mA2 mB2 p q r u heq
    rcases p with _ | ⟨x, p2⟩ <;> simp at heq
  | cons hd s2 ih =>
    intro sa hpf sb hpt hsfxa hsfxb h hcons hlock mA2 mB2 p q r u heq
    rcases hd with ⟨t, e⟩
    rcases p with _ | ⟨hd2, p2⟩
    · rw [List.nil_append] at heq
      injection heq with h1 h2
      injection h1 with ht he
      subst ht
      subst he
      rw [projOfConsSame] at hpf
      rw [projOfConsOther true false (WireEvent.sendMsg mA2) s2 (by simp)] at hpt
      subst hpf
      obtain ⟨-, hsa2⟩ := trAsuffixSend mA mA2 _ hsfxa
      have hmidA : midCrit (WireEvent.sendMsg mA2 :: projOf false s2) := by
        rw [hsa2]
        simp [midCrit]
      rcases h with _ | t0
      · simp only [lockConsistent] at hcons
        exact absurd hmidA hcons.1
      · rcases t0 with _ | _
        · simp only [lockConsistent] at hcons
          have hlock2 : (runWLock (some false) s2).isSome := by
            rw [runWLockConsOther (some false) false (WireEvent.sendMsg mA2) s2
              (by simp) (by simp)] at hlock
            exact hlock
          exact noFinishLemma mB midB hmidB s2 hsa2 sb hpt hsfxb hcons.2 hlock2
            mB2 q r u h2
        · simp only [lockConsistent] at hcons
          exact absurd hmidA hcons.1
    · rw [List.cons_append] at heq
      injection heq with h1 h2
      rcases t with _ | _
      · rw [projOfConsSame] at hpf
        rw [projOfConsOther true false e s2 (by simp)] at hpt
        subst hpf
        have hsfxa2 : projOf false s2 <:+ emitTraceShape mA [WireEvent.readIds] :=
          suffixTail _ _ _ hsfxa
        by_cases heaw : e = WireEvent.acquireWriter
        · subst heaw
          rw [runWLockConsAcquire] at hlock
          rcases h with _ | t0
          · simp only [lockConsistent] at hcons
            have hsa2 := trAsuffixAW mA _ hsfxa
            have hcons2 : lockConsistent (some false) (projOf false s2) sb := by
              simp only [lockConsistent]
              constructor
              · rw [hsa2]
                simp [midCrit]
              · exact hcons.2
            exact ih _ rfl sb hpt hsfxa2 hsfxb (some false) hcons2 hlock
              mA2 mB2 p2 q r u h2
          · simp at hlock
        · by_cases herw : e = WireEvent.releaseWriter
          · subst herw
            rw [runWLockConsRelease] at hlock
            rcases h with _ | t0
            · simp at hlock
            · rcases t0 with _ | _
              · simp only [if_pos rfl] at hlock
                simp only [lockConsistent] at hcons
                have hsa2 := trAsuffixRW mA _ hsfxa
                have hcons2 : lockConsistent none (projOf false s2) sb := by
                  simp only [lockConsistent]
                  constructor
                  · rw [hsa2]
                    simp [midCrit]
                  · exact hcons.2
                exact ih _ rfl sb hpt hsfxa2 hsfxb none hcons2 hlock
                  mA2 mB2 p2 q r u h2
              · simp at hlock
          · have hcons2 : lockConsistent h (projOf false s2) sb :=
              (lockConsistentConsA h e _ sb heaw herw).mp hcons
            have hlock2 : (runWLock h s2).isSome := by
              rw [runWLockConsOther h false e s2 heaw herw] at hlock
              exact hlock
            exact ih _ rfl sb hpt hsfxa2 hsfxb h hcons2 hlock2
              mA2 mB2 p2 q r u h2
      · rw [projOfConsOther false true e s2 (by simp)] at hpf
        rw [projOfConsSame] at hpt
        subst hpt
        have hsfxb2 : projOf true s2 <:+ emitTraceShape mB midB :=
          suffixTail _ _ _ hsfxb
        by_cases heaw : e = WireEvent.acquireWriter
        · subst heaw
          rw [runWLockConsAcquire] at hlock
          rcases h with _ | t0
          · simp only [lockConsistent] at hcons
            have hsb2 := trBsuffixAW mB midB hmidB _ hsfxb
            have hcons2 : lockConsistent (some true) sa (projOf true s2) := by
              simp only [lockConsistent]
              refine ⟨hcons.1, ?_⟩
              rw [hsb2]
              exact midCritAfterSendB mB midB hmidB
            exact ih sa hpf _ rfl hsfxa hsfxb2 (some true) hcons2 hlock
              mA2 mB2 p2 q r u h2
          · simp at hlock
        · by_cases herw : e = WireEvent.releaseWriter
          · subst herw
            rw [runWLockConsRelease] at hlock
            rcases h with _ | t0
            · simp at hlock
            · rcases t0 with _ | _
              · simp at hlock
              · simp only [if_pos rfl] at hlock
                simp only [lockConsistent] at hcons
                have hsb2 := trBsuffixRW mB midB hmidB _ hsfxb
                have hcons2 : lockConsistent none sa (projOf true s2) := by
                  simp only [lockConsistent]
                  refine ⟨hcons.1, ?_⟩
                  rw [hsb2]
                  simp [midCrit]
                exact ih sa hpf _ rfl hsfxa hsfxb2 none hcons2 hlock
                  mA2 mB2 p2 q r u h2
          · have hcons2 : lockConsistent h sa (projOf true s2) :=
              (lockConsistentConsB h e sa _ heaw herw).mp hcons
            have hlock2 : (runWLock h s2).isSome := by
              rw [runWLockConsOther h true e s2 heaw herw] at hlock
              exact hlock
            exact ih sa hpf _ rfl hsfxa hsfxb2 h hcons2 hlock2
              mA2 mB2 p2 q r u h2

/-- Claim C7: every `Bolt.emit` execution acquires the reader and writer
locks together around the whole send-then-optionally-read sequence
(bracket shape), and, as a consequence, in any writer-lock-valid
interleaving of two concurrent emit calls, no send of one call can occur
between another call's send and its response read — so no emitter receives
a response solicited by a different emitter. -/
theorem emit_lock_bracket_and_exclusion :
    (∀ (st : BoltState) (tup : List Int) (stream : Option String)
        (anchors : Option (List Anchor)) (direct_task : Option Int)
        (need_task_ids : Option Bool) (response : List Int),
      ∃ m mid,
        (Bolt.emit st tup stream anchors direct_task need_task_ids response).1 =
          [WireEvent.acquireReader, WireEvent.acquireWriter, WireEvent.sendMsg m] ++
            mid ++ [WireEvent.releaseWriter, WireEvent.releaseReader] ∧
        (mid = [] ∨ mid = [WireEvent.readIds])) ∧
    (∀ (stA : BoltState) (tupA : List Int) (streamA : Option String)
        (ancA : Option (List Anchor)) (dirA : Option Int) (needA : Option Bool)
        (respA : List Int)
        (stB : BoltState) (tupB : List Int) (streamB : Option String)
        (ancB : Option (List Anchor)) (dirB : Option Int) (needB : Option Bool)
        (respB : List Int) (s : List (Bool × WireEvent)),
      projOf false s = (Bolt.emit stA tupA streamA ancA dirA needA respA).1 →
      projOf true s = (Bolt.emit stB tupB streamB ancB dirB needB respB).1 →
      (runWLock none s).isSome →
      ∀ (m1 m2 : EmitMsg) (p q r u : List (Bool × WireEvent)),
        s ≠ p ++ (false, WireEvent.sendMsg m1) :: q ++
          (true, WireEvent.sendMsg m2) :: r ++
          (false, WireEvent.readIds) :: u) := by
  constructor
  · intro st tup stream anchors direct_task need_task_ids response
    obtain ⟨m, mid, hm, hmid⟩ :=
      emitShape st tup stream anchors direct_task need_task_ids response
    exact ⟨m, mid, by rw [hm]; rfl, hmid⟩
  · intro stA tupA streamA ancA dirA needA respA stB tupB streamB ancB dirB
      needB respB s hpf hpt hlock m1 m2 p q r u heq
    obtain ⟨mA, midA, hA, hmidA⟩ :=
      emitShape stA tupA streamA ancA dirA needA respA
    obtain ⟨mB, midB, hB, hmidB⟩ :=
      emitShape stB tupB streamB ancB dirB needB respB
    rw [hA] at hpf
    rw [hB] at hpt
    rcases hmidA with rfl | rfl
    · have hy : (false, WireEvent.readIds) ∈ s := by
        rw [heq]
        simp
      have hmem := memProjOf false WireEvent.readIds s hy
      rw [hpf] at hmem
      simp [emitTraceShape] at hmem
    · have hcons0 : lockConsistent none (emitTraceShape mA [WireEvent.readIds])
          (emitTraceShape mB midB) := by
        simp only [lockConsistent]
        exact ⟨notMidCritShape _ _, notMidCritShape _ _⟩
      exact wlockExclusionCore mA mB midB hmidB s _ hpf _ hpt
        (List.suffix_refl _) (List.suffix_refl _) none hcons0 hlock
        m1 m2 p q r u heq

/-- A state for the C7 witness. -/
def lockWitnessState : BoltState := { cfg := {}, current_tups := [] }

/-- The C7 witness schedule: one reading emit by thread `false` run to
completion, then one non-reading emit by thread `true`. -/
def lockWitnessSchedule : List (Bool × WireEvent) :=
  (Bolt.emit lockWitnessState [1] none none none (some true) [5]).1.map
    (fun e => (false, e)) ++
  (Bolt.emit lockWitnessState [2] none none none (some false) []).1.map
    (fun e => (true, e))

/-- Witness for C7 at concrete inputs. -/
theorem emit_lock_bracket_and_exclusion_witness :
    lockWitnessSchedule ≠
      [(false, WireEvent.sendMsg
          { tup := [1], anchors := [], stream := none, task := none,
            need_task_ids := none }),
       (true, WireEvent.sendMsg
          { tup := [2], anchors := [], stream := none, task := none,
            need_task_ids := some false }),
       (false, WireEvent.readIds)] := by
  have h := (emit_lock_bracket_and_exclusion).2 lockWitnessState [1] none none
    none (some true) [5] lockWitnessState [2] none none none (some false) []
    lockWitnessSchedule rfl rfl (by decide)
  exact h _ _ [] [] [] []
